import Mathlib

/-!
Verification of the micasa terminal table layout engine (collapsed-column
stacks), the gap separators, the stack renderer, and the per-entity undo
snapshot dispatch.  The Go sources are embedded shallowly: pure functions
become Lean functions over `List`/`Int`/`Nat`, the persistence collaborator
(absent from the sources) is modelled from the spec.
-/

namespace Micasa

/-- Modelled from the spec: the `columnSpec` record itself is not among the
sources (only its uses are).  The spec gives the fields
`{Title, BaseWidth ≥ 1, HideOrder (0 = visible, >0 = hidden), LinkKind}`;
the embedded layout code reads only `Title` and `HideOrder`. -/
structure columnSpec where
  Title : String
  BaseWidth : Nat
  HideOrder : Nat
  deriving Repr, DecidableEq

/-- Embeds Go `stackEntry` (part_003): name, full column index, hide order. -/
structure stackEntry where
  name : String
  fullIndex : Nat
  hideOrder : Nat
  deriving Repr, DecidableEq

/-- Embeds Go `collapsedStack` (part_003): entries, horizontal offset of the
pill's left edge, pill width, and the leading/trailing-edge flag. -/
structure collapsedStack where
  entries : List stackEntry
  offset : Int
  width : Int
  edge : Bool
  deriving Repr, DecidableEq

/-- Modelled from the spec: `sumInts` is a helper absent from the sources;
it sums an integer slice. -/
def sumInts (xs : List Int) : Int := xs.foldl (· + ·) 0

/-- Embeds Go `collectHiddenEntries(specs, lo, hi)`: walks indices from
`hi-1` down to `lo` and keeps the hidden columns (`HideOrder > 0`). -/
def collectHiddenEntries (specs : List columnSpec) (lo hi : Nat) : List stackEntry :=
  (List.range' lo (hi - lo)).reverse.filterMap fun i =>
    (specs[i]?).bind fun s =>
      if 0 < s.HideOrder then some ⟨s.Title, i, s.HideOrder⟩ else none

/-- Embeds Go `maxEntryWidth`; the display-width function `dispWidth`
stands for the external `lipgloss.Width`. -/
def maxEntryWidth (dispWidth : String → Nat) (entries : List stackEntry) : Nat :=
  entries.foldl (fun mx e => max mx (dispWidth e.name)) 0

/-- Embeds the width-and-offset clamp pass of `computeCollapsedStacks`
(part_003 lines 221-231), applied to one stack. -/
def clampStack (totalWidth : Int) (s : collapsedStack) : collapsedStack :=
  let w := if s.width > totalWidth then totalWidth else s.width
  let off := if s.offset + w > totalWidth then totalWidth - w else s.offset
  let off := if off < 0 then 0 else off
  { s with width := w, offset := off }

/-- Embeds one iteration of the overlap-merge loop of
`computeCollapsedStacks` (part_003 lines 233-253).  The accumulator holds
the merged stacks in reverse order, so the Go loop's last merged stack is
the head. -/
def mergeStep (totalWidth : Int) (acc : List collapsedStack) (s : collapsedStack) :
    List collapsedStack :=
  match acc with
  | [] => [s]
  | last :: rest =>
    if s.offset < last.offset + last.width then
      let e := max (last.offset + last.width) (s.offset + s.width)
      let w := e - last.offset
      let w := if w > totalWidth then totalWidth else w
      { last with entries := last.entries ++ s.entries, width := w,
                  edge := last.edge || s.edge } :: rest
    else
      s :: last :: rest

/-- Ordering used by the final entry re-sort of `computeCollapsedStacks`
(part_003 lines 254-259): full column index descending. -/
def entryGE (a b : stackEntry) : Prop := b.fullIndex ≤ a.fullIndex

instance : DecidableRel entryGE := fun a b => Nat.decLe b.fullIndex a.fullIndex

instance : IsTotal stackEntry entryGE :=
  ⟨fun a b => (Nat.le_total b.fullIndex a.fullIndex).elim Or.inl Or.inr⟩

instance : IsTrans stackEntry entryGE :=
  ⟨fun _ _ _ h1 h2 => Nat.le_trans h2 h1⟩

/-- Embeds the interior loop of `computeCollapsedStacks` (part_003 lines
176-199) structurally: `prev` is the previous visible column's full index
(`visToFull[i-1]`), `vs` the remaining visible indices, `ws` the remaining
column widths (one consumed per visible column), `offset` the running
horizontal position.  Returns the interior stacks in order together with
the final offset. -/
def interiorGo (dispWidth : String → Nat) (specs : List columnSpec) (sepWidth : Int) :
    Nat → List Nat → List Int → Int → List collapsedStack × Int
  | _, [], _, offset => ([], offset)
  | prev, v :: vrest, ws, offset =>
    let lo := prev + 1
    let hi := v
    let gap : List collapsedStack :=
      if lo < hi then
        let entries := collectHiddenEntries specs lo hi
        if entries.isEmpty then []
        else
          let w : Int := (maxEntryWidth dispWidth entries : Int) + 2
          let gapCenter := offset + Int.tdiv sepWidth 2
          let pillOff := gapCenter - Int.tdiv w 2
          let pillOff := if pillOff < 0 then 0 else pillOff
          [⟨entries, pillOff, w, false⟩]
      else []
    let offset := offset + sepWidth
    let offset := match ws with
      | [] => offset
      | w :: _ => offset + w
    let (rest, offset') := interiorGo dispWidth specs sepWidth v vrest ws.tail offset
    (gap ++ rest, offset')

/-- Embeds the leading-hidden-run block of `computeCollapsedStacks`
(part_003 lines 166-173): an edge stack anchored at offset 0 when hidden
columns precede the first visible one. -/
def leadingStacks (dispWidth : String → Nat) (specs : List columnSpec)
    (v0 : Nat) : List collapsedStack :=
  if 0 < v0 then
    let entries := collectHiddenEntries specs 0 v0
    if entries.isEmpty then []
    else [⟨entries, 0, (maxEntryWidth dispWidth entries : Int) + 2, true⟩]
  else []

/-- Embeds the trailing-hidden-run block of `computeCollapsedStacks`
(part_003 lines 202-213): an edge stack anchored at the row's right edge
when hidden columns follow the last visible one; `offset` is the final
offset of the interior loop. -/
def trailingStacks (dispWidth : String → Nat) (specs : List columnSpec)
    (lastVis : Nat) (offset : Int) : List collapsedStack :=
  if lastVis + 1 < specs.length then
    let entries := collectHiddenEntries specs (lastVis + 1) specs.length
    if entries.isEmpty then []
    else
      let w : Int := (maxEntryWidth dispWidth entries : Int) + 2
      let trailOff := offset - w
      let trailOff := if trailOff < 0 then 0 else trailOff
      [⟨entries, trailOff, w, true⟩]
  else []

/-- Embeds the stack-building phase of Go `computeCollapsedStacks`
(part_003 lines 163-213): the leading edge stack, the interior stacks
anchored at the gap separators, and the trailing edge stack, in that
order, before the clamp and merge passes. -/
def preMergeStacks (dispWidth : String → Nat) (specs : List columnSpec)
    (visToFull : List Nat) (widths : List Int) (sepWidth : Int) :
    List collapsedStack :=
  match visToFull with
  | [] => []
  | v0 :: vrest =>
    let offset0 : Int := match widths with
      | [] => 0
      | w :: _ => w
    let ir := interiorGo dispWidth specs sepWidth v0 vrest widths.tail offset0
    leadingStacks dispWidth specs v0 ++ ir.1 ++
      trailingStacks dispWidth specs ((v0 :: vrest).getLastD 0) ir.2

/-- Embeds the `totalWidth` computation of Go `computeCollapsedStacks`
(part_003 lines 217-220). -/
def totalColumnWidth (widths : List Int) (sepWidth : Int) : Int :=
  sumInts widths +
    (if 1 < widths.length then ((widths.length : Int) - 1) * sepWidth else 0)

/-- Embeds the final entry re-sort of Go `computeCollapsedStacks`
(part_003 lines 254-259): entries by full column index descending,
rightmost on top. -/
def sortStackEntries (s : collapsedStack) : collapsedStack :=
  { s with entries := s.entries.insertionSort entryGE }

/-- Embeds Go `computeCollapsedStacks(specs, visToFull, widths, sepWidth)`
(part_003 lines 152-262): early return on an empty visibility mapping,
then the stack-building phase, the clamp pass, the overlap-merge pass,
and the per-stack entry re-sort. -/
def computeCollapsedStacks (dispWidth : String → Nat) (specs : List columnSpec)
    (visToFull : List Nat) (widths : List Int) (sepWidth : Int) :
    List collapsedStack :=
  match visToFull with
  | [] => []
  | _ :: _ =>
    let totalWidth := totalColumnWidth widths sepWidth
    let clamped :=
      (preMergeStacks dispWidth specs visToFull widths sepWidth).map
        (clampStack totalWidth)
    let merged := (clamped.foldl (mergeStep totalWidth) []).reverse
    merged.map sortStackEntries

/-- Embeds Go `gapSeparators(visToFull, totalCols, normalSep, styles)`
(collapse.go lines 15-40 and part_003 lines 105-130).  The lipgloss style
renders — `styles.TableSeparator.Render` and the secondary-foreground
render — are passed as the functions `tableSepRender` and
`secondaryRender`, since the Styles record is not among the sources. -/
def gapSeparators (visToFull : List Nat) (_totalCols : Nat) (normalSep : String)
    (tableSepRender secondaryRender : String → String) :
    List String × List String :=
  let n := visToFull.length
  if n ≤ 1 then ([], [])
  else
    let collapsedSep := tableSepRender " " ++ secondaryRender "⋯" ++ tableSepRender " "
    let plainSeps := (List.range (n - 1)).map fun _ => normalSep
    let collapsedSeps := (List.range (n - 1)).map fun i =>
      if visToFull.getD i 0 + 1 < visToFull.getD (i + 1) 0 then collapsedSep
      else normalSep
    (plainSeps, collapsedSeps)

/-- Embeds the `positioned` record local to Go `renderStackLine`
(part_003 lines 337-341). -/
structure positioned where
  offset : Int
  text : String
  width : Int
  deriving Repr, DecidableEq

/-- Embeds the pill-collection loop of Go `renderStackLine` (part_003 lines
342-359): one pill per stack that still has an entry at this depth.  The
styled pill text (lipgloss background/width/align render) is abstracted as
`pillText entry width`. -/
def stackLinePills (pillText : stackEntry → Int → String)
    (stackList : List collapsedStack) (depth : Nat) : List positioned :=
  stackList.filterMap fun stack =>
    match stack.entries[depth]? with
    | none => none
    | some entry => some ⟨stack.offset, pillText entry stack.width, stack.width⟩

/-- Ordering of Go `renderStackLine`'s `sort.Slice` on pills: offset
ascending. -/
def posLE (a b : positioned) : Prop := a.offset ≤ b.offset

instance : DecidableRel posLE := fun a b => Int.decLe a.offset b.offset

instance : IsTotal positioned posLE :=
  ⟨fun a b => (Int.le_total a.offset b.offset).elim Or.inl Or.inr⟩

instance : IsTrans positioned posLE :=
  ⟨fun _ _ _ h1 h2 => Int.le_trans h1 h2⟩

/-- Go `strings.Repeat(" ", k)` on the gap to the next pill. -/
def spaces (k : Int) : String := String.mk (List.replicate k.toNat ' ')

/-- Embeds Go `renderStackLine(stackList, depth)` (part_003 lines 336-374):
collect pills, sort by offset, then emit padding and pill texts while
advancing a cursor. -/
def renderStackLine (pillText : stackEntry → Int → String)
    (stackList : List collapsedStack) (depth : Nat) : String :=
  let pills := (stackLinePills pillText stackList depth).insertionSort posLE
  (pills.foldl (fun (st : String × Int) p =>
      let st := if p.offset > st.2 then (st.1 ++ spaces (p.offset - st.2), p.offset) else st
      (st.1 ++ p.text, st.2 + p.width)) ("", 0)).1

/-- Embeds the `maxDepth` computation of Go `renderCollapsedStacks`
(part_003 lines 296-301). -/
def maxStackDepth (stackList : List collapsedStack) : Nat :=
  stackList.foldl (fun mx s => max mx s.entries.length) 0

/-- Embeds Go `renderCollapsedStacks(stackList)` (part_003 lines 292-307):
one rendered line per depth level up to the maximum entry count. -/
def renderCollapsedStacks (pillText : stackEntry → Int → String)
    (stackList : List collapsedStack) : List String :=
  if stackList.length = 0 then []
  else (List.range (maxStackDepth stackList)).map (renderStackLine pillText stackList)

/-- Embeds Go `hiddenColumnNames(specs)` (collapse.go lines 43-51 and
part_003 lines 377-385): the titles of all hidden columns, in order. -/
def hiddenColumnNames (specs : List columnSpec) : List String :=
  (specs.filter fun s => decide (0 < s.HideOrder)).map (·.Title)

/-- Whether the column at full index `i` is hidden (`HideOrder > 0`);
out-of-range indices count as not hidden, matching the in-range use in the
Go code. -/
def hiddenAt (specs : List columnSpec) (i : Nat) : Bool :=
  match specs[i]? with
  | some s => decide (0 < s.HideOrder)
  | none => false

/-- Number of hidden columns with full index in `[lo, hi)`. -/
def countHidden (specs : List columnSpec) (lo hi : Nat) : Nat :=
  (List.range' lo (hi - lo)).countP (hiddenAt specs)

/-- Follows the claim's words: the number of interior gaps — between two
consecutive visible columns — that contain at least one hidden column. -/
def interiorEligibleCount (specs : List columnSpec) : Nat → List Nat → Nat
  | _, [] => 0
  | prev, v :: rest =>
    (if 0 < countHidden specs (prev + 1) v then 1 else 0) +
      interiorEligibleCount specs v rest

/-- Follows the claim's words: the number of eligible gaps — before the
first visible column, between two consecutive visible columns, or after
the last visible column — that contain at least one hidden column. -/
def eligibleGapCount (specs : List columnSpec) (visToFull : List Nat) : Nat :=
  match visToFull with
  | [] => 0
  | v0 :: rest =>
    (if 0 < countHidden specs 0 v0 then 1 else 0) +
      interiorEligibleCount specs v0 rest +
      (if 0 < countHidden specs ((v0 :: rest).getLastD 0 + 1) specs.length
       then 1 else 0)

/-- Sum of the interior gaps' hidden-column counts. -/
def interiorHiddenSum (specs : List columnSpec) : Nat → List Nat → Nat
  | _, [] => 0
  | prev, v :: rest =>
    countHidden specs (prev + 1) v + interiorHiddenSum specs v rest

/-- Total number of entries over a list of collapsed stacks. -/
def entriesTotal (l : List collapsedStack) : Nat :=
  (l.map fun s => s.entries.length).sum

/-- A stack lies inside the rendered row of width `T`. -/
def stackBounded (T : Int) (s : collapsedStack) : Prop :=
  0 ≤ s.offset ∧ 0 ≤ s.width ∧ s.offset + s.width ≤ T

/-! ## Entity handlers and undo snapshots

The `TabHandler` Snapshot implementations (part_003 lines 398-714) are in
the sources; the persistence collaborator `data.Store` they call is not,
so its operations are modelled from the spec below. -/

/-- Embeds Go `FormKind` (types.go lines 12-20, extended by the
`formAppliance` kind used in part_003). -/
inductive FormKind where
  | formNone
  | formHouse
  | formProject
  | formQuote
  | formMaintenance
  | formAppliance
  deriving Repr, DecidableEq

/-- Modelled from the spec: `data.Project` row (projects table of the
schema; the columns read by the handlers and row builders). `deleted`
stands for `DeletedAt.Valid`. -/
structure Project where
  id : Nat
  title : String
  typeName : String
  status : String
  description : String
  budgetCents : Option Int
  actualCents : Option Int
  startDate : Option String
  endDate : Option String
  deleted : Bool
  deriving Repr, DecidableEq

/-- Modelled from the spec: `data.Vendor` (vendors table; the handlers
read only the name). -/
structure Vendor where
  name : String
  deriving Repr, DecidableEq

/-- Modelled from the spec: `data.Quote` row (quotes table) with its
loaded vendor. -/
structure Quote where
  id : Nat
  projectID : Nat
  projectTitle : String
  vendor : Vendor
  totalCents : Int
  laborCents : Option Int
  materialsCents : Option Int
  otherCents : Option Int
  receivedDate : Option String
  notes : String
  deleted : Bool
  deriving Repr, DecidableEq

/-- Modelled from the spec: `data.MaintenanceItem` row
(maintenance_items table). -/
structure MaintenanceItem where
  id : Nat
  name : String
  categoryName : String
  lastServicedAt : Option String
  nextDueAt : Option String
  intervalMonths : Nat
  manualText : String
  manualURL : String
  deleted : Bool
  deriving Repr, DecidableEq

/-- Modelled from the spec: `data.Appliance` row (appliances table). -/
structure Appliance where
  id : Nat
  name : String
  brand : String
  location : String
  costCents : Option Int
  deleted : Bool
  deriving Repr, DecidableEq

/-- Modelled from the spec: one entity table of the store, an ordered
association list from id to row; lookup returns the first row stored
under `id`. -/
def lookupEntity {α : Type} : List (Nat × α) → Nat → Option α
  | [], _ => none
  | kv :: rest, id => if kv.1 == id then some kv.2 else lookupEntity rest id

/-- Modelled from the spec: replace the row stored under `id`. -/
def updateEntity {α : Type} (tbl : List (Nat × α)) (id : Nat) (v : α) :
    List (Nat × α) :=
  tbl.map fun kv => if kv.1 == id then (kv.1, v) else kv

/-- Modelled from the spec: whether a row is stored under `id`. -/
def containsEntity {α : Type} (tbl : List (Nat × α)) (id : Nat) : Bool :=
  tbl.any fun kv => kv.1 == id

/-- Modelled from the spec: the store's state, one table per entity type
relevant to the snapshot claims. -/
structure Store where
  projects : List (Nat × Project)
  quotes : List (Nat × Quote)
  maintenance : List (Nat × MaintenanceItem)
  appliances : List (Nat × Appliance)
  deriving Repr, DecidableEq

/-- Modelled from the spec: the coarse error classification
{Validation, NotFound, Io} of handler operations, plus the failure of
invoking an absent restore operation. -/
inductive StoreErr where
  | validation
  | notFound
  | io
  | nilRestore
  deriving Repr, DecidableEq

/-- Modelled from the spec: `store.GetProject(id)` resolves the live
(non-soft-deleted) row, or fails — rendered as `none` — when the entity
no longer resolves. -/
def Store.GetProject (s : Store) (id : Nat) : Option Project :=
  (lookupEntity s.projects id).bind fun p =>
    if p.deleted then none else some p

/-- Modelled from the spec: `store.DeleteProject(id)` soft-deletes the
row (sets the deleted marker), `NotFound` if no row is stored. -/
def Store.DeleteProject (s : Store) (id : Nat) : Except StoreErr Store :=
  match lookupEntity s.projects id with
  | none => .error .notFound
  | some p =>
    .ok { s with projects := updateEntity s.projects id { p with deleted := true } }

/-- Modelled from the spec: `store.UpdateProject(p)` reapplies the given
prior state wholesale to the row stored under `p.id`. -/
def Store.UpdateProject (s : Store) (p : Project) : Except StoreErr Store :=
  if containsEntity s.projects p.id then
    .ok { s with projects := updateEntity s.projects p.id p }
  else .error .notFound

/-- Modelled from the spec: quote store operations, as for projects. -/
def Store.GetQuote (s : Store) (id : Nat) : Option Quote :=
  (lookupEntity s.quotes id).bind fun q =>
    if q.deleted then none else some q

/-- Modelled from the spec: soft delete of a quote. -/
def Store.DeleteQuote (s : Store) (id : Nat) : Except StoreErr Store :=
  match lookupEntity s.quotes id with
  | none => .error .notFound
  | some q =>
    .ok { s with quotes := updateEntity s.quotes id { q with deleted := true } }

/-- Modelled from the spec: `store.UpdateQuote(q, vendor)` reapplies the
prior quote state with the given vendor. -/
def Store.UpdateQuote (s : Store) (q : Quote) (v : Vendor) : Except StoreErr Store :=
  if containsEntity s.quotes q.id then
    .ok { s with quotes := updateEntity s.quotes q.id { q with vendor := v } }
  else .error .notFound

/-- Modelled from the spec: maintenance store operations, as for
projects. -/
def Store.GetMaintenance (s : Store) (id : Nat) : Option MaintenanceItem :=
  (lookupEntity s.maintenance id).bind fun it =>
    if it.deleted then none else some it

/-- Modelled from the spec: soft delete of a maintenance item. -/
def Store.DeleteMaintenance (s : Store) (id : Nat) : Except StoreErr Store :=
  match lookupEntity s.maintenance id with
  | none => .error .notFound
  | some it =>
    .ok { s with maintenance := updateEntity s.maintenance id { it with deleted := true } }

/-- Modelled from the spec: reapply a prior maintenance-item state. -/
def Store.UpdateMaintenance (s : Store) (it : MaintenanceItem) : Except StoreErr Store :=
  if containsEntity s.maintenance it.id then
    .ok { s with maintenance := updateEntity s.maintenance it.id it }
  else .error .notFound

/-- Modelled from the spec: appliance store operations, as for
projects. -/
def Store.GetAppliance (s : Store) (id : Nat) : Option Appliance :=
  (lookupEntity s.appliances id).bind fun a =>
    if a.deleted then none else some a

/-- Modelled from the spec: soft delete of an appliance. -/
def Store.DeleteAppliance (s : Store) (id : Nat) : Except StoreErr Store :=
  match lookupEntity s.appliances id with
  | none => .error .notFound
  | some a =>
    .ok { s with appliances := updateEntity s.appliances id { a with deleted := true } }

/-- Modelled from the spec: reapply a prior appliance state. -/
def Store.UpdateAppliance (s : Store) (a : Appliance) : Except StoreErr Store :=
  if containsEntity s.appliances a.id then
    .ok { s with appliances := updateEntity s.appliances a.id a }
  else .error .notFound

/-- Go `fmt.Sprintf("%q", s)` as used in the snapshot descriptions
(escaping of special characters elided: plain double quoting). -/
def goQuote (s : String) : String := "\"" ++ s ++ "\""

/-- Embeds Go `undoEntry` as used by the Snapshot implementations: the
stored restore closure becomes a deferred store operation; Go's nil
function (zero value) is `none`. -/
structure undoEntry where
  Description : String
  FormKind : FormKind
  EntityID : Nat
  Restore : Option (Store → Except StoreErr Store)

/-- The zero value `undoEntry{}` returned on a failed lookup. -/
def emptyUndoEntry : undoEntry :=
  ⟨"", .formNone, 0, none⟩

/-- Embeds Go `projectHandler.Snapshot(store, id)` (part_003 lines
491-504). -/
def projectSnapshot (s : Store) (id : Nat) : undoEntry × Bool :=
  match s.GetProject id with
  | none => (emptyUndoEntry, false)
  | some project =>
    (⟨"project " ++ goQuote project.title, .formProject, id,
      some fun st => st.UpdateProject project⟩, true)

/-- Embeds Go `quoteHandler.Snapshot(store, id)` (part_003 lines
561-575): the vendor is captured separately and passed to UpdateQuote. -/
def quoteSnapshot (s : Store) (id : Nat) : undoEntry × Bool :=
  match s.GetQuote id with
  | none => (emptyUndoEntry, false)
  | some quote =>
    let vendor := quote.vendor
    (⟨"quote from " ++ vendor.name, .formQuote, id,
      some fun st => st.UpdateQuote quote vendor⟩, true)

/-- Embeds Go `maintenanceHandler.Snapshot(store, id)` (part_003 lines
627-640). -/
def maintenanceSnapshot (s : Store) (id : Nat) : undoEntry × Bool :=
  match s.GetMaintenance id with
  | none => (emptyUndoEntry, false)
  | some item =>
    (⟨"maintenance " ++ goQuote item.name, .formMaintenance, id,
      some fun st => st.UpdateMaintenance item⟩, true)

/-- Embeds Go `applianceHandler.Snapshot(store, id)` (part_003 lines
698-711). -/
def applianceSnapshot (s : Store) (id : Nat) : undoEntry × Bool :=
  match s.GetAppliance id with
  | none => (emptyUndoEntry, false)
  | some item =>
    (⟨"appliance " ++ goQuote item.name, .formAppliance, id,
      some fun st => st.UpdateAppliance item⟩, true)

/-- Invoking the restore operation stored in an undo entry on the current
store; an absent (nil) operation fails. -/
def applyRestore (e : undoEntry) (s : Store) : Except StoreErr Store :=
  match e.Restore with
  | none => .error .nilRestore
  | some f => f s

/-! ## Association-table lemmas for the snapshot round trip -/

theorem lookupEntity_updateEntity_same {α : Type} (tbl : List (Nat × α))
    (id : Nat) (w v : α) (h : lookupEntity tbl id = some w) :
    lookupEntity (updateEntity tbl id v) id = some v := by
  induction tbl with
  | nil => simp [lookupEntity] at h
  | cons kv rest ih =>
    by_cases hk : (kv.1 == id) = true
    · simp [lookupEntity, updateEntity, hk]
    · simp only [lookupEntity, hk, if_false] at h
      simpa [updateEntity, lookupEntity, hk] using ih h

theorem containsEntity_of_lookup {α : Type} (tbl : List (Nat × α))
    (id : Nat) (w : α) (h : lookupEntity tbl id = some w) :
    containsEntity tbl id = true := by
  induction tbl with
  | nil => simp [lookupEntity] at h
  | cons kv rest ih =>
    by_cases hk : (kv.1 == id) = true
    · simp [containsEntity, hk]
    · simp only [lookupEntity, hk, if_false] at h
      simp only [containsEntity, List.any_cons, hk, Bool.false_or]
      exact ih h

theorem table_roundtrip {α : Type} (tbl : List (Nat × α)) (id : Nat)
    (orig del final : α) (h : lookupEntity tbl id = some orig) :
    lookupEntity (updateEntity (updateEntity tbl id del) id final) id = some final :=
  lookupEntity_updateEntity_same _ _ del final
    (lookupEntity_updateEntity_same _ _ orig del h)

/-! ## Claim theorems -/

/-- Claim C9: when the visible-to-full mapping passed to
`computeCollapsedStacks` is empty (every column hidden), the function
returns the empty stack list, regardless of the specs, widths and
separator width. -/
theorem computeCollapsedStacks_empty_mapping (dispWidth : String → Nat)
    (specs : List columnSpec) (widths : List Int) (sepWidth : Int) :
    computeCollapsedStacks dispWidth specs [] widths sepWidth = [] := rfl

/-- Claim C8: the layout and stack-rendering functions are deterministic
and side-effect free — two invocations of `computeCollapsedStacks` on
equal inputs return identical stack lists, and two invocations of
`renderCollapsedStacks` on equal stack lists return identical output
lines.  (Both are pure functions in this embedding, so determinism is by
construction.) -/
theorem layout_and_render_deterministic
    (dW dW' : String → Nat) (specs specs' : List columnSpec)
    (vtf vtf' : List Nat) (widths widths' : List Int) (sep sep' : Int)
    (pt pt' : stackEntry → Int → String) (sts sts' : List collapsedStack)
    (h1 : dW = dW') (h2 : specs = specs') (h3 : vtf = vtf')
    (h4 : widths = widths') (h5 : sep = sep') (h6 : pt = pt')
    (h7 : sts = sts') :
    computeCollapsedStacks dW specs vtf widths sep =
      computeCollapsedStacks dW' specs' vtf' widths' sep' ∧
    renderCollapsedStacks pt sts = renderCollapsedStacks pt' sts' := by
  subst h1; subst h2; subst h3; subst h4; subst h5; subst h6; subst h7
  exact ⟨rfl, rfl⟩

/-- Witness for C8 at concrete inputs. -/
theorem layout_and_render_deterministic_witness :
    ([3] : List Int) = [3] ∧
    computeCollapsedStacks String.length [⟨"A", 1, 1⟩] [0] [3] 1 =
      computeCollapsedStacks String.length [⟨"A", 1, 1⟩] [0] [3] 1 ∧
    renderCollapsedStacks (fun e _ => e.name) [⟨[⟨"A", 0, 1⟩], 0, 3, false⟩] =
      renderCollapsedStacks (fun e _ => e.name) [⟨[⟨"A", 0, 1⟩], 0, 3, false⟩] :=
  ⟨rfl, layout_and_render_deterministic String.length String.length
    [⟨"A", 1, 1⟩] [⟨"A", 1, 1⟩] [0] [0] [3] [3] 1 1
    (fun e _ => e.name) (fun e _ => e.name)
    [⟨[⟨"A", 0, 1⟩], 0, 3, false⟩] [⟨[⟨"A", 0, 1⟩], 0, 3, false⟩]
    rfl rfl rfl rfl rfl rfl rfl⟩

/-- Claim C7: Snapshot never returns an error: when the store lookup
fails it returns found=false with the zero-value UndoEntry, and when the
lookup succeeds it returns found=true with Description, FormKind,
EntityID and the Restore operation populated from the fetched entity —
for each entity type's handler. -/
theorem snapshot_total_spec (s : Store) (id : Nat) :
    (s.GetProject id = none → projectSnapshot s id = (emptyUndoEntry, false)) ∧
    (∀ p, s.GetProject id = some p →
      (projectSnapshot s id).2 = true ∧
      (projectSnapshot s id).1.Description = "project " ++ goQuote p.title ∧
      (projectSnapshot s id).1.FormKind = FormKind.formProject ∧
      (projectSnapshot s id).1.EntityID = id ∧
      ((projectSnapshot s id).1.Restore).isSome = true) ∧
    (s.GetQuote id = none → quoteSnapshot s id = (emptyUndoEntry, false)) ∧
    (∀ q, s.GetQuote id = some q →
      (quoteSnapshot s id).2 = true ∧
      (quoteSnapshot s id).1.Description = "quote from " ++ q.vendor.name ∧
      (quoteSnapshot s id).1.FormKind = FormKind.formQuote ∧
      (quoteSnapshot s id).1.EntityID = id ∧
      ((quoteSnapshot s id).1.Restore).isSome = true) ∧
    (s.GetMaintenance id = none →
      maintenanceSnapshot s id = (emptyUndoEntry, false)) ∧
    (∀ it, s.GetMaintenance id = some it →
      (maintenanceSnapshot s id).2 = true ∧
      (maintenanceSnapshot s id).1.Description =
        "maintenance " ++ goQuote it.name ∧
      (maintenanceSnapshot s id).1.FormKind = FormKind.formMaintenance ∧
      (maintenanceSnapshot s id).1.EntityID = id ∧
      ((maintenanceSnapshot s id).1.Restore).isSome = true) ∧
    (s.GetAppliance id = none →
      applianceSnapshot s id = (emptyUndoEntry, false)) ∧
    (∀ a, s.GetAppliance id = some a →
      (applianceSnapshot s id).2 = true ∧
      (applianceSnapshot s id).1.Description =
        "appliance " ++ goQuote a.name ∧
      (applianceSnapshot s id).1.FormKind = FormKind.formAppliance ∧
      (applianceSnapshot s id).1.EntityID = id ∧
      ((applianceSnapshot s id).1.Restore).isSome = true) := by
  refine ⟨?_, ?_, ?_, ?_, ?_, ?_, ?_, ?_⟩
  · intro h; simp [projectSnapshot, h]
  · intro p hp; simp [projectSnapshot, hp]
  · intro h; simp [quoteSnapshot, h]
  · intro q hq; simp [quoteSnapshot, hq]
  · intro h; simp [maintenanceSnapshot, h]
  · intro it hit; simp [maintenanceSnapshot, hit]
  · intro h; simp [applianceSnapshot, h]
  · intro a ha; simp [applianceSnapshot, ha]

/-- Concrete entities and store used by the snapshot witnesses. -/
def wProject : Project :=
  ⟨1, "Kitchen remodel", "Renovation", "active", "", some 500000, none,
    some "2026-01-01", none, false⟩

/-- Concrete vendor for the snapshot witnesses. -/
def wVendor : Vendor := ⟨"Acme Plumbing"⟩

/-- Concrete quote for the snapshot witnesses. -/
def wQuote : Quote :=
  ⟨1, 1, "Kitchen remodel", wVendor, 120000, some 80000, none, none,
    some "2026-02-01", "", false⟩

/-- Concrete maintenance item for the snapshot witnesses. -/
def wMaintenance : MaintenanceItem :=
  ⟨1, "Gutter cleaning", "Exterior", none, some "2026-05-01", 6, "", "", false⟩

/-- Concrete appliance for the snapshot witnesses. -/
def wAppliance : Appliance := ⟨1, "Fridge", "LG", "Kitchen", some 99900, false⟩

/-- Concrete store holding one live row per entity type. -/
def witnessStore : Store :=
  ⟨[(1, wProject)], [(1, wQuote)], [(1, wMaintenance)], [(1, wAppliance)]⟩

/-- Witness for C7: both the failed-lookup branch (id 2 is absent) and the
successful branch (id 1 resolves) at the concrete store. -/
theorem snapshot_total_spec_witness :
    (witnessStore.GetProject 2 = none ∧
      projectSnapshot witnessStore 2 = (emptyUndoEntry, false)) ∧
    (witnessStore.GetProject 1 = some wProject ∧
      (projectSnapshot witnessStore 1).2 = true ∧
      ((projectSnapshot witnessStore 1).1.Restore).isSome = true) ∧
    (witnessStore.GetQuote 1 = some wQuote ∧
      (quoteSnapshot witnessStore 1).1.Description =
        "quote from " ++ wQuote.vendor.name) :=
  ⟨⟨rfl, (snapshot_total_spec witnessStore 2).1 rfl⟩,
   ⟨rfl, ((snapshot_total_spec witnessStore 1).2.1 wProject rfl).1,
     ((snapshot_total_spec witnessStore 1).2.1 wProject rfl).2.2.2.2⟩,
   ⟨rfl, ((snapshot_total_spec witnessStore 1).2.2.2.1 wQuote rfl).2.1⟩⟩

/-- Splits a live-row lookup: the raw lookup succeeded and the row is not
soft-deleted. -/
theorem bind_if_live_eq_some {α : Type} (o : Option α) (del : α → Bool) (x : α)
    (h : (o.bind fun y => if del y then none else some y) = some x) :
    o = some x ∧ del x = false := by
  cases o with
  | none => simp at h
  | some y =>
    by_cases hd : del y = true
    · simp [hd] at h
    · simp [hd] at h
      subst h
      exact ⟨rfl, by simpa using hd⟩

/-- Claim C6: for every entity type's handler and every resolving entity
id, Snapshot, then Delete, then invoking the Restore operation stored in
the returned UndoEntry reproduces the entity's prior field values
exactly. -/
theorem snapshot_delete_restore_roundtrip (s : Store)
    (pid qid mid aid : Nat) (p : Project) (q : Quote)
    (it : MaintenanceItem) (a : Appliance)
    (hp : s.GetProject pid = some p) (hpid : p.id = pid)
    (hq : s.GetQuote qid = some q) (hqid : q.id = qid)
    (hm : s.GetMaintenance mid = some it) (hmid : it.id = mid)
    (ha : s.GetAppliance aid = some a) (haid : a.id = aid) :
    ((projectSnapshot s pid).2 = true ∧
      ((s.DeleteProject pid).toOption.bind fun sd =>
        (applyRestore (projectSnapshot s pid).1 sd).toOption.bind fun sr =>
          sr.GetProject pid) = some p) ∧
    ((quoteSnapshot s qid).2 = true ∧
      ((s.DeleteQuote qid).toOption.bind fun sd =>
        (applyRestore (quoteSnapshot s qid).1 sd).toOption.bind fun sr =>
          sr.GetQuote qid) = some q) ∧
    ((maintenanceSnapshot s mid).2 = true ∧
      ((s.DeleteMaintenance mid).toOption.bind fun sd =>
        (applyRestore (maintenanceSnapshot s mid).1 sd).toOption.bind fun sr =>
          sr.GetMaintenance mid) = some it) ∧
    ((applianceSnapshot s aid).2 = true ∧
      ((s.DeleteAppliance aid).toOption.bind fun sd =>
        (applyRestore (applianceSnapshot s aid).1 sd).toOption.bind fun sr =>
          sr.GetAppliance aid) = some a) := by
  subst hpid; subst hqid; subst hmid; subst haid
  refine ⟨⟨by simp [projectSnapshot, hp], ?_⟩,
          ⟨by simp [quoteSnapshot, hq], ?_⟩,
          ⟨by simp [maintenanceSnapshot, hm], ?_⟩,
          ⟨by simp [applianceSnapshot, ha], ?_⟩⟩
  · obtain ⟨hl, hdel⟩ :=
      bind_if_live_eq_some (lookupEntity s.projects p.id) (·.deleted) p hp
    have hrt := table_roundtrip s.projects p.id p { p with deleted := true } p hl
    have hcont := containsEntity_of_lookup _ _ _
      (lookupEntity_updateEntity_same s.projects p.id p { p with deleted := true } hl)
    simp [projectSnapshot, hp, Store.DeleteProject, hl, applyRestore,
      Store.UpdateProject, hcont, Store.GetProject, hrt, hdel, Except.toOption]
  · obtain ⟨hl, hdel⟩ :=
      bind_if_live_eq_some (lookupEntity s.quotes q.id) (·.deleted) q hq
    have hrt := table_roundtrip s.quotes q.id q { q with deleted := true } q hl
    have hcont := containsEntity_of_lookup _ _ _
      (lookupEntity_updateEntity_same s.quotes q.id q { q with deleted := true } hl)
    have hqq : ({ q with vendor := q.vendor } : Quote) = q := rfl
    simp only [quoteSnapshot, hq, Store.DeleteQuote, hl, applyRestore,
      Store.UpdateQuote, hqq, hcont, Except.toOption, if_true, Option.some_bind]
    simp [Store.GetQuote, hrt, hdel]
  · obtain ⟨hl, hdel⟩ :=
      bind_if_live_eq_some (lookupEntity s.maintenance it.id) (·.deleted) it hm
    have hrt := table_roundtrip s.maintenance it.id it { it with deleted := true } it hl
    have hcont := containsEntity_of_lookup _ _ _
      (lookupEntity_updateEntity_same s.maintenance it.id it
        { it with deleted := true } hl)
    simp [maintenanceSnapshot, hm, Store.DeleteMaintenance, hl, applyRestore,
      Store.UpdateMaintenance, hcont, Store.GetMaintenance, hrt, hdel,
      Except.toOption]
  · obtain ⟨hl, hdel⟩ :=
      bind_if_live_eq_some (lookupEntity s.appliances a.id) (·.deleted) a ha
    have hrt := table_roundtrip s.appliances a.id a { a with deleted := true } a hl
    have hcont := containsEntity_of_lookup _ _ _
      (lookupEntity_updateEntity_same s.appliances a.id a
        { a with deleted := true } hl)
    simp [applianceSnapshot, ha, Store.DeleteAppliance, hl, applyRestore,
      Store.UpdateAppliance, hcont, Store.GetAppliance, hrt, hdel,
      Except.toOption]

/-- Witness for C6 at the concrete store: the full
snapshot-delete-restore chain recovers every entity. -/
theorem snapshot_delete_restore_roundtrip_witness :
    (witnessStore.GetProject 1 = some wProject ∧ wProject.id = 1 ∧
      witnessStore.GetQuote 1 = some wQuote ∧ wQuote.id = 1) ∧
    ((witnessStore.DeleteProject 1).toOption.bind fun sd =>
        (applyRestore (projectSnapshot witnessStore 1).1 sd).toOption.bind fun sr =>
          sr.GetProject 1) = some wProject ∧
    ((witnessStore.DeleteQuote 1).toOption.bind fun sd =>
        (applyRestore (quoteSnapshot witnessStore 1).1 sd).toOption.bind fun sr =>
          sr.GetQuote 1) = some wQuote ∧
    ((witnessStore.DeleteMaintenance 1).toOption.bind fun sd =>
        (applyRestore (maintenanceSnapshot witnessStore 1).1 sd).toOption.bind fun sr =>
          sr.GetMaintenance 1) = some wMaintenance ∧
    ((witnessStore.DeleteAppliance 1).toOption.bind fun sd =>
        (applyRestore (applianceSnapshot witnessStore 1).1 sd).toOption.bind fun sr =>
          sr.GetAppliance 1) = some wAppliance :=
  ⟨⟨rfl, rfl, rfl, rfl⟩,
   (snapshot_delete_restore_roundtrip witnessStore 1 1 1 1 wProject wQuote
      wMaintenance wAppliance rfl rfl rfl rfl rfl rfl rfl rfl).1.2,
   (snapshot_delete_restore_roundtrip witnessStore 1 1 1 1 wProject wQuote
      wMaintenance wAppliance rfl rfl rfl rfl rfl rfl rfl rfl).2.1.2,
   (snapshot_delete_restore_roundtrip witnessStore 1 1 1 1 wProject wQuote
      wMaintenance wAppliance rfl rfl rfl rfl rfl rfl rfl rfl).2.2.1.2,
   (snapshot_delete_restore_roundtrip witnessStore 1 1 1 1 wProject wQuote
      wMaintenance wAppliance rfl rfl rfl rfl rfl rfl rfl rfl).2.2.2.2⟩

theorem length_stackLinePills (pillText : stackEntry → Int → String)
    (sts : List collapsedStack) (d : Nat) :
    (stackLinePills pillText sts d).length =
      sts.countP fun s => decide (d < s.entries.length) := by
  induction sts with
  | nil => rfl
  | cons s rest ih =>
    by_cases hd : d < s.entries.length
    · have hsome : s.entries[d]? = some s.entries[d] := List.getElem?_eq_getElem hd
      simp [stackLinePills, List.filterMap_cons, hsome, List.countP_cons, hd,
        ← ih, stackLinePills]
    · have hnone : s.entries[d]? = none := by
        rw [List.getElem?_eq_none_iff]; omega
      simp [stackLinePills, List.filterMap_cons, hnone, List.countP_cons, hd,
        ← ih, stackLinePills]

/-- Claim C4: for every non-empty stack list, `renderCollapsedStacks`
returns exactly max-entry-count lines, and the line for depth `d` carries
exactly one badge (pill) for each stack whose entry count exceeds `d`. -/
theorem renderCollapsedStacks_line_count (pillText : stackEntry → Int → String)
    (sts : List collapsedStack) (h : sts ≠ []) :
    (renderCollapsedStacks pillText sts).length = maxStackDepth sts ∧
    ∀ d, d < maxStackDepth sts →
      (stackLinePills pillText sts d).length =
        sts.countP fun s => decide (d < s.entries.length) := by
  constructor
  · have hlen : sts.length ≠ 0 := fun hh => h (List.length_eq_zero.mp hh)
    simp [renderCollapsedStacks, hlen]
  · intro d _
    exact length_stackLinePills pillText sts d

/-- Concrete stack list for the C4 witness: two stacks of depths 2 and 1. -/
def wStacks : List collapsedStack :=
  [⟨[⟨"Status", 3, 2⟩, ⟨"Type", 2, 1⟩], 0, 8, false⟩,
   ⟨[⟨"End", 7, 3⟩], 20, 5, true⟩]

/-- Witness for C4 at the concrete stack list. -/
theorem renderCollapsedStacks_line_count_witness :
    wStacks ≠ [] ∧
    (renderCollapsedStacks (fun e _ => e.name) wStacks).length =
      maxStackDepth wStacks ∧
    (1 < maxStackDepth wStacks ∧
      (stackLinePills (fun e _ => e.name) wStacks 1).length =
        wStacks.countP fun s => decide (1 < s.entries.length)) :=
  ⟨by decide,
   (renderCollapsedStacks_line_count (fun e _ => e.name) wStacks (by decide)).1,
   by decide,
   (renderCollapsedStacks_line_count (fun e _ => e.name) wStacks (by decide)).2
     1 (by decide)⟩

theorem interiorGo_consecutive (dW : String → Nat) (specs : List columnSpec)
    (sep : Int) :
    ∀ (k prev : Nat) (ws : List Int) (off : Int),
      (interiorGo dW specs sep prev (List.range' (prev + 1) k) ws off).1 = [] := by
  intro k
  induction k with
  | zero => intro prev ws off; rfl
  | succ n ih =>
    intro prev ws off
    rw [List.range'_succ]
    simp only [interiorGo, Nat.lt_irrefl, if_false]
    simp [ih (prev + 1)]

/-- When every column is visible the mapping is the identity range and no
stacks are produced. -/
theorem computeCollapsedStacks_all_visible (dW : String → Nat)
    (specs : List columnSpec) (widths : List Int) (sep : Int) :
    computeCollapsedStacks dW specs (List.range specs.length) widths sep = [] := by
  cases hs : specs.length with
  | zero => rfl
  | succ k =>
    have hr : List.range (k + 1) = 0 :: List.range' 1 k := by
      rw [List.range_eq_range', List.range'_succ]
    have hlast : (0 :: List.range' 1 k).getLastD 0 = k := by
      rw [← hr, List.range_succ]
      exact List.getLastD_concat _ _ _
    rw [hr]
    simp only [computeCollapsedStacks, preMergeStacks, Nat.lt_irrefl, if_false,
      hlast, hs]
    have hint := interiorGo_consecutive dW specs sep k 0 widths.tail
      (match widths with | [] => (0 : Int) | w :: _ => w)
    simp [hint, leadingStacks, trailingStacks, hs]

/-- Claim C5: `gapSeparators` emits one separator per gap between adjacent
visible columns; the separator is the collapsed (⋯) form exactly when the
two columns' full indices differ by more than one, otherwise the plain
form; and when every column is visible the layout has zero collapsed
stacks and every separator is plain. -/
theorem gapSeparators_spec (vtf : List Nat) (tc tc' : Nat) (normalSep : String)
    (tsr sr : String → String) (dW : String → Nat) (specs : List columnSpec)
    (widths : List Int) (sep : Int) :
    (gapSeparators vtf tc normalSep tsr sr).1.length = vtf.length - 1 ∧
    (gapSeparators vtf tc normalSep tsr sr).2.length = vtf.length - 1 ∧
    (∀ i, i + 1 < vtf.length →
      (vtf.getD i 0 + 1 < vtf.getD (i + 1) 0 →
        (gapSeparators vtf tc normalSep tsr sr).2.getD i "" =
          tsr " " ++ sr "⋯" ++ tsr " ") ∧
      (¬ vtf.getD i 0 + 1 < vtf.getD (i + 1) 0 →
        (gapSeparators vtf tc normalSep tsr sr).2.getD i "" = normalSep)) ∧
    (∀ x ∈ (gapSeparators (List.range specs.length) tc' normalSep tsr sr).2,
      x = normalSep) ∧
    computeCollapsedStacks dW specs (List.range specs.length) widths sep = [] := by
  refine ⟨?_, ?_, ?_, ?_, computeCollapsedStacks_all_visible dW specs widths sep⟩
  · by_cases hn : vtf.length ≤ 1 <;> simp [gapSeparators, hn]
  · by_cases hn : vtf.length ≤ 1 <;> simp [gapSeparators, hn]
  · intro i hi
    have hn : ¬ vtf.length ≤ 1 := by omega
    have hi' : i < vtf.length - 1 := by omega
    have hget : (gapSeparators vtf tc normalSep tsr sr).2.getD i "" =
        (if vtf.getD i 0 + 1 < vtf.getD (i + 1) 0
         then tsr " " ++ sr "⋯" ++ tsr " " else normalSep) := by
      simp only [gapSeparators, hn, if_false]
      rw [List.getD_eq_getElem?_getD, List.getElem?_map, List.getElem?_range hi']
      rfl
    constructor
    · intro hgap; rw [hget, if_pos hgap]
    · intro hgap; rw [hget, if_neg hgap]
  · intro x hx
    by_cases hn : specs.length ≤ 1
    · simp [gapSeparators, hn] at hx
    · simp only [gapSeparators, List.length_range, if_neg hn, List.mem_map] at hx
      obtain ⟨i, hi, hx⟩ := hx
      rw [List.mem_range] at hi
      have h1 : (List.range specs.length).getD i 0 = i := by
        rw [List.getD_eq_getElem?_getD, List.getElem?_range (by omega)]
        rfl
      have h2 : (List.range specs.length).getD (i + 1) 0 = i + 1 := by
        rw [List.getD_eq_getElem?_getD, List.getElem?_range (by omega)]
        rfl
      rw [h1, h2] at hx
      simpa using hx.symm

/-- A fully visible two-column spec list for the C5 witness. -/
def wVisSpecs : List columnSpec := [⟨"ID", 4, 0⟩, ⟨"Title", 24, 0⟩]

/-- Witness for C5 at concrete inputs: separator count, the collapsed
separator at the eligible gap of [0, 1, 4], and the all-visible case. -/
theorem gapSeparators_spec_witness :
    (1 + 1 < ([0, 1, 4] : List Nat).length ∧
      ([0, 1, 4] : List Nat).getD 1 0 + 1 < ([0, 1, 4] : List Nat).getD 2 0) ∧
    (gapSeparators [0, 1, 4] 5 " | " (fun s => s) (fun s => s)).2.getD 1 "" =
      (fun s : String => s) " " ++ (fun s : String => s) "⋯" ++
        (fun s : String => s) " " ∧
    (gapSeparators [0, 1, 4] 5 " | " (fun s => s) (fun s => s)).2.length =
      ([0, 1, 4] : List Nat).length - 1 ∧
    (" | " ∈ (gapSeparators (List.range wVisSpecs.length) 2 " | "
        (fun s => s) (fun s => s)).2 ∧
      computeCollapsedStacks String.length wVisSpecs
        (List.range wVisSpecs.length) [4, 24] 3 = []) :=
  ⟨⟨by decide, by decide⟩,
   ((gapSeparators_spec [0, 1, 4] 5 2 " | " (fun s => s) (fun s => s)
       String.length wVisSpecs [4, 24] 3).2.2.1 1 (by decide)).1 (by decide),
   (gapSeparators_spec [0, 1, 4] 5 2 " | " (fun s => s) (fun s => s)
       String.length wVisSpecs [4, 24] 3).2.1,
   ⟨by decide,
    (gapSeparators_spec [0, 1, 4] 5 2 " | " (fun s => s) (fun s => s)
       String.length wVisSpecs [4, 24] 3).2.2.2.2⟩⟩

theorem clampStack_entries (T : Int) (s : collapsedStack) :
    (clampStack T s).entries = s.entries := rfl

theorem clampStack_edge (T : Int) (s : collapsedStack) :
    (clampStack T s).edge = s.edge := rfl

/-- Column specs refuting the hide-order stacking sentence: in the single
interior gap, B (hide order 2, full index 1) was hidden more recently
than C (hide order 1, full index 2), yet C renders on top. -/
def c3Specs : List columnSpec :=
  [⟨"A", 1, 0⟩, ⟨"B", 1, 2⟩, ⟨"C", 1, 1⟩, ⟨"D", 1, 0⟩]

/-- Counterexample to C3 as stated: for the columns
[A(vis), B(hidden,2), C(hidden,1), D(vis)] the single returned stack's
entries carry hide orders [1, 2] top-to-bottom, so the most recently
hidden column (hide order 2) is not on top: the code stacks by full
column index descending, not by hide order. -/
theorem hide_order_stacking_cex :
    ((computeCollapsedStacks String.length c3Specs [0, 3] [1, 1] 3).map fun s =>
      s.entries.map fun e => e.hideOrder) = [[1, 2]] := by decide

/-- The spec scenario's column list:
[ID(vis), Title(vis), Type(hidden,1), Status(hidden,2), Start(vis)]. -/
def scenarioSpecs : List columnSpec :=
  [⟨"ID", 4, 0⟩, ⟨"Title", 24, 0⟩, ⟨"Type", 12, 1⟩, ⟨"Status", 10, 2⟩,
   ⟨"Start", 10, 0⟩]

/-- Claim C3 (amended): within every collapsed stack the full column
index determines the stacking order — entries are sorted by full index
descending, so the rightmost hidden column renders on top, which
coincides with the most recently hidden one only when hide order grows
left to right within the gap.  In the scenario
[ID(vis), Title(vis), Type(hidden,1), Status(hidden,2), Start(vis)] the
layout yields exactly one interior (non-edge) stack with entries
[Status, Type] and Status on top (here Status is both rightmost and most
recently hidden), for every width list and separator width. -/
theorem stack_entries_order (dW dW' : String → Nat) (specs : List columnSpec)
    (vtf : List Nat) (widths widths' : List Int) (sep sep' : Int) :
    (∀ s ∈ computeCollapsedStacks dW specs vtf widths sep,
      s.entries.Sorted entryGE) ∧
    ((computeCollapsedStacks dW' scenarioSpecs [0, 1, 4] widths' sep').map fun s =>
      (s.entries.map fun e => (e.name, e.hideOrder), s.edge)) =
      [([("Status", 2), ("Type", 1)], false)] := by
  constructor
  · intro s hs
    cases vtf with
    | nil => simp [computeCollapsedStacks] at hs
    | cons v0 vrest =>
      simp only [computeCollapsedStacks] at hs
      rw [List.mem_map] at hs
      obtain ⟨t, _, rfl⟩ := hs
      exact List.sorted_insertionSort entryGE t.entries
  · have hcollect : collectHiddenEntries scenarioSpecs 2 4 =
        [⟨"Status", 3, 2⟩, ⟨"Type", 2, 1⟩] := rfl
    simp only [computeCollapsedStacks, preMergeStacks, interiorGo, hcollect]
    norm_num
    simp [mergeStep, sortStackEntries, clampStack_entries, clampStack_edge,
      List.insertionSort, List.orderedInsert, entryGE, List.getLastD,
      scenarioSpecs, leadingStacks, trailingStacks]

/-- Witness for C3 (amended) at the concrete scenario input. -/
theorem stack_entries_order_witness :
    (⟨[⟨"Status", 3, 2⟩, ⟨"Type", 2, 1⟩], 28, 8, false⟩ : collapsedStack) ∈
      computeCollapsedStacks String.length scenarioSpecs [0, 1, 4] [4, 24, 10] 3 ∧
    (⟨[⟨"Status", 3, 2⟩, ⟨"Type", 2, 1⟩], 28, 8, false⟩ :
        collapsedStack).entries.Sorted entryGE ∧
    ((computeCollapsedStacks String.length scenarioSpecs [0, 1, 4]
        [4, 24, 10] 3).map fun s =>
      (s.entries.map fun e => (e.name, e.hideOrder), s.edge)) =
      [([("Status", 2), ("Type", 1)], false)] :=
  ⟨by decide,
   (stack_entries_order String.length String.length scenarioSpecs [0, 1, 4]
      [4, 24, 10] [4, 24, 10] 3 3).1
     ⟨[⟨"Status", 3, 2⟩, ⟨"Type", 2, 1⟩], 28, 8, false⟩ (by decide),
   (stack_entries_order String.length String.length scenarioSpecs [0, 1, 4]
      [4, 24, 10] [4, 24, 10] 3 3).2⟩

/-! ## Counting hidden columns: lemmas for C1 -/

theorem length_collectHiddenEntries (specs : List columnSpec) (lo hi : Nat) :
    (collectHiddenEntries specs lo hi).length = countHidden specs lo hi := by
  unfold collectHiddenEntries countHidden
  rw [List.filterMap_reverse, List.length_reverse,
    List.length_filterMap_eq_countP]
  apply List.countP_congr
  intro i _
  cases hsp : specs[i]? with
  | none => simp [hiddenAt, hsp]
  | some s =>
    by_cases h0 : 0 < s.HideOrder <;> simp [hiddenAt, hsp, h0]

theorem collectHiddenEntries_eq_nil_iff (specs : List columnSpec) (lo hi : Nat) :
    collectHiddenEntries specs lo hi = [] ↔ countHidden specs lo hi = 0 := by
  rw [← List.length_eq_zero, length_collectHiddenEntries]

theorem countHidden_of_le (specs : List columnSpec) (lo hi : Nat) (h : hi ≤ lo) :
    countHidden specs lo hi = 0 := by
  unfold countHidden
  have hz : hi - lo = 0 := by omega
  rw [hz]
  rfl

theorem countHidden_split (specs : List columnSpec) (lo mid hi : Nat)
    (h1 : lo ≤ mid) (h2 : mid ≤ hi) :
    countHidden specs lo hi = countHidden specs lo mid + countHidden specs mid hi := by
  unfold countHidden
  have happ := List.range'_append lo (mid - lo) (hi - mid) 1
  have hmid : lo + 1 * (mid - lo) = mid := by omega
  rw [hmid] at happ
  have h3 : hi - lo = (hi - mid) + (mid - lo) := by omega
  rw [h3, ← happ, List.countP_append]

theorem countHidden_succ_self (specs : List columnSpec) (v : Nat) :
    countHidden specs v (v + 1) = if hiddenAt specs v then 1 else 0 := by
  unfold countHidden
  have hz : v + 1 - v = 1 := by omega
  rw [hz]
  simp [List.range'_one, List.countP_cons]

theorem interiorGo_length (dW : String → Nat) (specs : List columnSpec)
    (sep : Int) :
    ∀ (vs : List Nat) (prev : Nat) (ws : List Int) (off : Int),
      (interiorGo dW specs sep prev vs ws off).1.length =
        interiorEligibleCount specs prev vs := by
  intro vs
  induction vs with
  | nil => intro prev ws off; rfl
  | cons v vrest ih =>
    intro prev ws off
    simp only [interiorGo, interiorEligibleCount]
    by_cases hlt : prev + 1 < v
    · by_cases hemp : (collectHiddenEntries specs (prev + 1) v).isEmpty = true
      · have hc : countHidden specs (prev + 1) v = 0 :=
          (collectHiddenEntries_eq_nil_iff specs _ _).mp
            (List.isEmpty_iff.mp hemp)
        simp [hlt, hemp, hc, ih]
      · have hc : ¬ countHidden specs (prev + 1) v = 0 := fun h => hemp (by
          rw [(collectHiddenEntries_eq_nil_iff specs _ _).mpr h]; rfl)
        have hpos : 0 < countHidden specs (prev + 1) v := Nat.pos_of_ne_zero hc
        simp [hlt, hemp, hpos, ih]
        omega
    · have hc : countHidden specs (prev + 1) v = 0 :=
        countHidden_of_le specs _ _ (by omega)
      simp [hlt, hc, ih]

theorem leadingStacks_length (dW : String → Nat) (specs : List columnSpec)
    (v0 : Nat) :
    (leadingStacks dW specs v0).length =
      if 0 < countHidden specs 0 v0 then 1 else 0 := by
  unfold leadingStacks
  by_cases h0 : 0 < v0
  · by_cases hemp : (collectHiddenEntries specs 0 v0).isEmpty = true
    · have hc : countHidden specs 0 v0 = 0 :=
        (collectHiddenEntries_eq_nil_iff specs _ _).mp (List.isEmpty_iff.mp hemp)
      simp [h0, hemp, hc]
    · have hc : ¬ countHidden specs 0 v0 = 0 := fun h => hemp (by
        rw [(collectHiddenEntries_eq_nil_iff specs _ _).mpr h]; rfl)
      have hpos : 0 < countHidden specs 0 v0 := Nat.pos_of_ne_zero hc
      simp [h0, hemp, hpos]
  · have hc : countHidden specs 0 v0 = 0 :=
      countHidden_of_le specs _ _ (by omega)
    simp [h0, hc]

theorem trailingStacks_length (dW : String → Nat) (specs : List columnSpec)
    (lastVis : Nat) (off : Int) :
    (trailingStacks dW specs lastVis off).length =
      if 0 < countHidden specs (lastVis + 1) specs.length then 1 else 0 := by
  unfold trailingStacks
  by_cases h0 : lastVis + 1 < specs.length
  · by_cases hemp :
        (collectHiddenEntries specs (lastVis + 1) specs.length).isEmpty = true
    · have hc : countHidden specs (lastVis + 1) specs.length = 0 :=
        (collectHiddenEntries_eq_nil_iff specs _ _).mp (List.isEmpty_iff.mp hemp)
      simp [h0, hemp, hc]
    · have hc : ¬ countHidden specs (lastVis + 1) specs.length = 0 := fun h =>
        hemp (by rw [(collectHiddenEntries_eq_nil_iff specs _ _).mpr h]; rfl)
      have hpos : 0 < countHidden specs (lastVis + 1) specs.length :=
        Nat.pos_of_ne_zero hc
      simp [h0, hemp, hpos]
  · have hc : countHidden specs (lastVis + 1) specs.length = 0 :=
      countHidden_of_le specs _ _ (by omega)
    simp [h0, hc]

theorem preMergeStacks_length (dW : String → Nat) (specs : List columnSpec)
    (vtf : List Nat) (widths : List Int) (sep : Int) :
    (preMergeStacks dW specs vtf widths sep).length =
      eligibleGapCount specs vtf := by
  cases vtf with
  | nil => rfl
  | cons v0 vrest =>
    simp only [preMergeStacks, eligibleGapCount, List.length_append]
    rw [leadingStacks_length, trailingStacks_length, interiorGo_length]

theorem entriesTotal_nil : entriesTotal [] = 0 := rfl

theorem entriesTotal_cons (s : collapsedStack) (l : List collapsedStack) :
    entriesTotal (s :: l) = s.entries.length + entriesTotal l := by
  simp [entriesTotal]

theorem entriesTotal_append (l1 l2 : List collapsedStack) :
    entriesTotal (l1 ++ l2) = entriesTotal l1 + entriesTotal l2 := by
  simp [entriesTotal]

theorem interiorGo_entriesTotal (dW : String → Nat) (specs : List columnSpec)
    (sep : Int) :
    ∀ (vs : List Nat) (prev : Nat) (ws : List Int) (off : Int),
      entriesTotal (interiorGo dW specs sep prev vs ws off).1 =
        interiorHiddenSum specs prev vs := by
  intro vs
  induction vs with
  | nil => intro prev ws off; rfl
  | cons v vrest ih =>
    intro prev ws off
    simp only [interiorGo, interiorHiddenSum]
    by_cases hlt : prev + 1 < v
    · by_cases hemp : (collectHiddenEntries specs (prev + 1) v).isEmpty = true
      · have hc : countHidden specs (prev + 1) v = 0 :=
          (collectHiddenEntries_eq_nil_iff specs _ _).mp
            (List.isEmpty_iff.mp hemp)
        simp [hlt, hemp, hc, ih, entriesTotal_append]
      · have hne : collectHiddenEntries specs (prev + 1) v ≠ [] := fun h =>
          hemp (by rw [h]; rfl)
        have hemp' : (collectHiddenEntries specs (prev + 1) v).isEmpty = false := by
          cases hh : (collectHiddenEntries specs (prev + 1) v).isEmpty
          · rfl
          · exact absurd hh hemp
        simp only [hlt, if_true, hemp', Bool.false_eq_true, if_false,
          entriesTotal_append, entriesTotal_cons, entriesTotal_nil, ih,
          length_collectHiddenEntries]
        omega
    · have hc : countHidden specs (prev + 1) v = 0 :=
        countHidden_of_le specs _ _ (by omega)
      simp [hlt, hc, ih]

theorem leadingStacks_entriesTotal (dW : String → Nat) (specs : List columnSpec)
    (v0 : Nat) :
    entriesTotal (leadingStacks dW specs v0) = countHidden specs 0 v0 := by
  unfold leadingStacks
  by_cases h0 : 0 < v0
  · by_cases hemp : (collectHiddenEntries specs 0 v0).isEmpty = true
    · have hc : countHidden specs 0 v0 = 0 :=
        (collectHiddenEntries_eq_nil_iff specs _ _).mp (List.isEmpty_iff.mp hemp)
      simp [h0, hemp, hc, entriesTotal_nil]
    · have hemp' : (collectHiddenEntries specs 0 v0).isEmpty = false := by
        cases hh : (collectHiddenEntries specs 0 v0).isEmpty
        · rfl
        · exact absurd hh hemp
      simp [h0, hemp', entriesTotal_cons, entriesTotal_nil,
        length_collectHiddenEntries]
  · have hc : countHidden specs 0 v0 = 0 :=
      countHidden_of_le specs _ _ (by omega)
    simp [h0, hc, entriesTotal_nil]

theorem trailingStacks_entriesTotal (dW : String → Nat)
    (specs : List columnSpec) (lastVis : Nat) (off : Int) :
    entriesTotal (trailingStacks dW specs lastVis off) =
      countHidden specs (lastVis + 1) specs.length := by
  unfold trailingStacks
  by_cases h0 : lastVis + 1 < specs.length
  · by_cases hemp :
        (collectHiddenEntries specs (lastVis + 1) specs.length).isEmpty = true
    · have hc : countHidden specs (lastVis + 1) specs.length = 0 :=
        (collectHiddenEntries_eq_nil_iff specs _ _).mp (List.isEmpty_iff.mp hemp)
      simp [h0, hemp, hc, entriesTotal_nil]
    · have hemp' :
          (collectHiddenEntries specs (lastVis + 1) specs.length).isEmpty = false := by
        cases hh : (collectHiddenEntries specs (lastVis + 1) specs.length).isEmpty
        · rfl
        · exact absurd hh hemp
      simp [h0, hemp', entriesTotal_cons, entriesTotal_nil,
        length_collectHiddenEntries]
  · have hc : countHidden specs (lastVis + 1) specs.length = 0 :=
      countHidden_of_le specs _ _ (by omega)
    simp [h0, hc, entriesTotal_nil]

theorem preMergeStacks_entriesTotal (dW : String → Nat)
    (specs : List columnSpec) (v0 : Nat) (vrest : List Nat)
    (widths : List Int) (sep : Int) :
    entriesTotal (preMergeStacks dW specs (v0 :: vrest) widths sep) =
      countHidden specs 0 v0 + interiorHiddenSum specs v0 vrest +
        countHidden specs ((v0 :: vrest).getLastD 0 + 1) specs.length := by
  simp only [preMergeStacks, entriesTotal_append]
  rw [leadingStacks_entriesTotal, trailingStacks_entriesTotal,
    interiorGo_entriesTotal]

theorem interiorHiddenSum_trailing (specs : List columnSpec) :
    ∀ (rest : List Nat) (v0 : Nat),
      rest.Pairwise (· < ·) →
      (∀ u ∈ rest, v0 < u ∧ u < specs.length ∧ hiddenAt specs u = false) →
      v0 < specs.length →
      interiorHiddenSum specs v0 rest +
        countHidden specs ((v0 :: rest).getLastD 0 + 1) specs.length =
      countHidden specs (v0 + 1) specs.length := by
  intro rest
  induction rest with
  | nil =>
    intro v0 _ _ _
    simp [interiorHiddenSum, List.getLastD]
  | cons v1 r ih =>
    intro v0 hpw hmem hv0
    obtain ⟨h1, hr⟩ := List.pairwise_cons.mp hpw
    obtain ⟨hv01, hv1len, hv1hid⟩ := hmem v1 (by simp)
    have hlast : (v0 :: v1 :: r).getLastD 0 = (v1 :: r).getLastD 0 := by
      simp [List.getLastD_cons]
    have hIH := ih v1 hr
      (fun u hu => ⟨h1 u hu, (hmem u (List.mem_cons_of_mem _ hu)).2.1,
        (hmem u (List.mem_cons_of_mem _ hu)).2.2⟩) hv1len
    have hs1 := countHidden_split specs (v0 + 1) v1 specs.length
      (by omega) (by omega)
    have hs2 := countHidden_split specs v1 (v1 + 1) specs.length
      (by omega) (by omega)
    have hone : countHidden specs v1 (v1 + 1) = 0 := by
      rw [countHidden_succ_self]
      simp [hv1hid]
    rw [hlast]
    simp only [interiorHiddenSum]
    omega

theorem countHidden_shift (c : columnSpec) (rest : List columnSpec) :
    ∀ (n lo : Nat),
      (List.range' (lo + 1) n).countP (hiddenAt (c :: rest)) =
        (List.range' lo n).countP (hiddenAt rest) := by
  intro n
  induction n with
  | zero => intro lo; rfl
  | succ m ih =>
    intro lo
    rw [List.range'_succ, List.range'_succ, List.countP_cons, List.countP_cons,
      ih (lo + 1)]
    congr 1
    simp [hiddenAt]

theorem countHidden_full (specs : List columnSpec) :
    countHidden specs 0 specs.length = (hiddenColumnNames specs).length := by
  induction specs with
  | nil => rfl
  | cons c rest ih =>
    show (List.range' 0 ((c :: rest).length - 0)).countP (hiddenAt (c :: rest)) =
      (hiddenColumnNames (c :: rest)).length
    simp only [List.length_cons, Nat.sub_zero]
    rw [List.range'_succ 0 rest.length 1, List.countP_cons,
      show (0 + 1 : Nat) = 0 + 1 from rfl, countHidden_shift c rest rest.length 0]
    unfold countHidden at ih
    simp only [Nat.sub_zero] at ih
    rw [ih]
    have hat0 : hiddenAt (c :: rest) 0 = decide (0 < c.HideOrder) := by
      simp [hiddenAt]
    by_cases h0 : 0 < c.HideOrder
    · simp [hiddenColumnNames, List.filter_cons, hat0, h0]
    · simp [hiddenColumnNames, List.filter_cons, hat0, h0]

/-! ## The merge pass preserves the entries and can only shrink the list -/

theorem entriesTotal_mergeStep (T : Int) (acc : List collapsedStack)
    (s : collapsedStack) :
    entriesTotal (mergeStep T acc s) = entriesTotal acc + s.entries.length := by
  cases acc with
  | nil => simp [mergeStep, entriesTotal]
  | cons last rest =>
    by_cases h : s.offset < last.offset + last.width
    · simp only [mergeStep, h, if_true, entriesTotal_cons, List.length_append]
      omega
    · simp only [mergeStep, h, if_false, entriesTotal_cons]
      omega

theorem entriesTotal_foldl_mergeStep (T : Int) :
    ∀ (l acc : List collapsedStack),
      entriesTotal (l.foldl (mergeStep T) acc) =
        entriesTotal acc + entriesTotal l := by
  intro l
  induction l with
  | nil => intro acc; simp [entriesTotal]
  | cons s rest ih =>
    intro acc
    simp only [List.foldl_cons]
    rw [ih, entriesTotal_mergeStep, entriesTotal_cons]
    omega

theorem length_mergeStep_le (T : Int) (acc : List collapsedStack)
    (s : collapsedStack) :
    (mergeStep T acc s).length ≤ acc.length + 1 := by
  cases acc with
  | nil => simp [mergeStep]
  | cons last rest =>
    by_cases h : s.offset < last.offset + last.width <;> simp [mergeStep, h]

theorem length_foldl_mergeStep_le (T : Int) :
    ∀ (l acc : List collapsedStack),
      (l.foldl (mergeStep T) acc).length ≤ acc.length + l.length := by
  intro l
  induction l with
  | nil => intro acc; simp
  | cons s rest ih =>
    intro acc
    simp only [List.foldl_cons]
    have h1 := ih (mergeStep T acc s)
    have h2 := length_mergeStep_le T acc s
    simp only [List.length_cons]
    omega

theorem entriesTotal_reverse (l : List collapsedStack) :
    entriesTotal l.reverse = entriesTotal l := by
  simp [entriesTotal, List.map_reverse, List.sum_reverse]

theorem entriesTotal_map_clamp (T : Int) (l : List collapsedStack) :
    entriesTotal (l.map (clampStack T)) = entriesTotal l := by
  simp [entriesTotal, List.map_map, Function.comp_def, clampStack_entries]

theorem entriesTotal_map_sort (l : List collapsedStack) :
    entriesTotal (l.map sortStackEntries) = entriesTotal l := by
  simp [entriesTotal, List.map_map, Function.comp_def, sortStackEntries,
    List.length_insertionSort]

theorem interiorEligibleCount_le (specs : List columnSpec) :
    ∀ (rest : List Nat) (prev : Nat),
      interiorEligibleCount specs prev rest ≤ rest.length := by
  intro rest
  induction rest with
  | nil => intro prev; simp [interiorEligibleCount]
  | cons v r ih =>
    intro prev
    simp only [interiorEligibleCount, List.length_cons]
    have := ih v
    split <;> omega

theorem eligibleGapCount_le (specs : List columnSpec) (vtf : List Nat) :
    eligibleGapCount specs vtf ≤ vtf.length + 1 := by
  cases vtf with
  | nil => simp [eligibleGapCount]
  | cons v0 rest =>
    simp only [eligibleGapCount, List.length_cons]
    have := interiorEligibleCount_le specs rest v0
    split <;> split <;> omega

/-- Concrete input refuting the exactly-g stack count: one hidden column
on each side of a single narrow visible column; the leading and trailing
edge stacks overlap after clamping and are merged into one. -/
def cexSpecs : List columnSpec := [⟨"A", 1, 1⟩, ⟨"B", 4, 0⟩, ⟨"C", 1, 2⟩]

/-- Counterexample to C1 as stated: for specs
[A(hidden,1), B(visible), C(hidden,2)], visToFull [1], widths [4] and
separator width 3, there are g = 2 eligible gaps holding hidden columns
but the merge pass returns a single stack, so the returned count is not
exactly g. -/
theorem gap_count_cex :
    eligibleGapCount cexSpecs [1] = 2 ∧
    (computeCollapsedStacks String.length cexSpecs [1] [4] 3).length = 1 := by
  decide

/-- Claim C1 (amended): for every ColumnSpec list whose k hidden columns
are spread across g eligible gaps — the visibility mapping being
nonempty, strictly increasing and listing only in-range visible columns —
`computeCollapsedStacks` returns at most g collapsed stacks (the merge
pass can combine overlapping stacks, so the count need not equal g), with
g ≤ visible_count + 1, and the sum of the entry counts over all returned
stacks equals k. -/
theorem computeCollapsedStacks_gap_count (dW : String → Nat)
    (specs : List columnSpec) (vtf : List Nat) (widths : List Int) (sep : Int)
    (hne : vtf ≠ [])
    (hpw : vtf.Pairwise (· < ·))
    (hmem : ∀ v ∈ vtf, v < specs.length ∧ hiddenAt specs v = false) :
    (computeCollapsedStacks dW specs vtf widths sep).length ≤
      eligibleGapCount specs vtf ∧
    eligibleGapCount specs vtf ≤ vtf.length + 1 ∧
    entriesTotal (computeCollapsedStacks dW specs vtf widths sep) =
      (hiddenColumnNames specs).length := by
  cases vtf with
  | nil => exact absurd rfl hne
  | cons v0 vrest =>
    refine ⟨?_, eligibleGapCount_le specs _, ?_⟩
    · have heq :
          (computeCollapsedStacks dW specs (v0 :: vrest) widths sep).length =
          (((preMergeStacks dW specs (v0 :: vrest) widths sep).map
              (clampStack (totalColumnWidth widths sep))).foldl
            (mergeStep (totalColumnWidth widths sep)) []).length := by
        simp [computeCollapsedStacks]
      have hfold := length_foldl_mergeStep_le (totalColumnWidth widths sep)
        ((preMergeStacks dW specs (v0 :: vrest) widths sep).map
          (clampStack (totalColumnWidth widths sep))) []
      have hlen : ((preMergeStacks dW specs (v0 :: vrest) widths sep).map
          (clampStack (totalColumnWidth widths sep))).length =
          eligibleGapCount specs (v0 :: vrest) := by
        rw [List.length_map, preMergeStacks_length]
      simp only [List.length_nil] at hfold
      omega
    · obtain ⟨hv0len, hv0hid⟩ := hmem v0 (by simp)
      obtain ⟨h1, hr⟩ := List.pairwise_cons.mp hpw
      have htrail := interiorHiddenSum_trailing specs vrest v0 hr
        (fun u hu => ⟨h1 u hu, (hmem u (List.mem_cons_of_mem _ hu)).1,
          (hmem u (List.mem_cons_of_mem _ hu)).2⟩) hv0len
      have hpre := preMergeStacks_entriesTotal dW specs v0 vrest widths sep
      have heq :
          entriesTotal (computeCollapsedStacks dW specs (v0 :: vrest) widths sep) =
          entriesTotal (preMergeStacks dW specs (v0 :: vrest) widths sep) := by
        simp only [computeCollapsedStacks]
        rw [entriesTotal_map_sort, entriesTotal_reverse,
          entriesTotal_foldl_mergeStep, entriesTotal_map_clamp]
        simp [entriesTotal_nil]
      have h3 : countHidden specs v0 (v0 + 1) = 0 := by
        rw [countHidden_succ_self]
        simp [hv0hid]
      have h4 := countHidden_split specs 0 v0 specs.length (by omega) (by omega)
      have h5 := countHidden_split specs v0 (v0 + 1) specs.length
        (by omega) (by omega)
      have hfull := countHidden_full specs
      rw [heq, hpre]
      omega

/-- Witness for C1 (amended) at the scenario input: one interior gap,
g = 1, k = 2. -/
theorem computeCollapsedStacks_gap_count_witness :
    (([0, 1, 4] : List Nat) ≠ [] ∧
      ([0, 1, 4] : List Nat).Pairwise (· < ·) ∧
      (∀ v ∈ ([0, 1, 4] : List Nat), v < scenarioSpecs.length ∧
        hiddenAt scenarioSpecs v = false)) ∧
    ((computeCollapsedStacks String.length scenarioSpecs [0, 1, 4]
        [4, 24, 10] 3).length ≤ eligibleGapCount scenarioSpecs [0, 1, 4] ∧
      eligibleGapCount scenarioSpecs [0, 1, 4] ≤
        ([0, 1, 4] : List Nat).length + 1 ∧
      entriesTotal (computeCollapsedStacks String.length scenarioSpecs
        [0, 1, 4] [4, 24, 10] 3) = (hiddenColumnNames scenarioSpecs).length) :=
  ⟨⟨by decide, by decide, by decide⟩,
   computeCollapsedStacks_gap_count String.length scenarioSpecs [0, 1, 4]
     [4, 24, 10] 3 (by decide) (by decide) (by decide)⟩

/-! ## Bounds and disjointness of the returned stacks: lemmas for C2/C10 -/

theorem foldl_add_nonneg :
    ∀ (xs : List Int) (init : Int), (∀ x ∈ xs, 0 ≤ x) → 0 ≤ init →
      0 ≤ xs.foldl (· + ·) init := by
  intro xs
  induction xs with
  | nil => intro init _ h0; simpa using h0
  | cons x rest ih =>
    intro init hx h0
    simp only [List.foldl_cons]
    exact ih (init + x) (fun y hy => hx y (by simp [hy]))
      (by have := hx x (by simp); omega)

theorem sumInts_nonneg (xs : List Int) (h : ∀ x ∈ xs, 0 ≤ x) :
    0 ≤ sumInts xs :=
  foldl_add_nonneg xs 0 h le_rfl

theorem totalColumnWidth_nonneg (widths : List Int) (sep : Int)
    (hw : ∀ w ∈ widths, 0 ≤ w) (hs : 0 ≤ sep) :
    0 ≤ totalColumnWidth widths sep := by
  unfold totalColumnWidth
  have h1 := sumInts_nonneg widths hw
  split_ifs with hl
  · have h2 : (0 : Int) ≤ ((widths.length : Int) - 1) * sep := by
      apply mul_nonneg _ hs
      have : (1 : Int) ≤ (widths.length : Int) := by exact_mod_cast Nat.one_le_of_lt hl
      omega
    omega
  · omega

theorem interiorGo_nonneg (dW : String → Nat) (specs : List columnSpec)
    (sep : Int) :
    ∀ (vs : List Nat) (prev : Nat) (ws : List Int) (off : Int),
      ∀ s ∈ (interiorGo dW specs sep prev vs ws off).1,
        0 ≤ s.offset ∧ 0 ≤ s.width := by
  intro vs
  induction vs with
  | nil => intro prev ws off s hsm; simp [interiorGo] at hsm
  | cons v vrest ih =>
    intro prev ws off s hsm
    simp only [interiorGo] at hsm
    rw [List.mem_append] at hsm
    rcases hsm with hgap | hrest
    · by_cases hlt : prev + 1 < v
      · simp only [hlt, if_true] at hgap
        by_cases hemp : (collectHiddenEntries specs (prev + 1) v).isEmpty = true
        · simp [hemp] at hgap
        · have hemp' : (collectHiddenEntries specs (prev + 1) v).isEmpty = false := by
            cases hh : (collectHiddenEntries specs (prev + 1) v).isEmpty
            · rfl
            · exact absurd hh hemp
          simp only [hemp', Bool.false_eq_true, if_false,
            List.mem_singleton] at hgap
          subst hgap
          constructor
          · dsimp only
            split_ifs with hneg <;> omega
          · dsimp only
            positivity
      · simp [hlt] at hgap
    · exact ih v (ws.tail) _ s hrest

theorem leadingStacks_nonneg (dW : String → Nat) (specs : List columnSpec)
    (v0 : Nat) :
    ∀ s ∈ leadingStacks dW specs v0, 0 ≤ s.offset ∧ 0 ≤ s.width := by
  intro s hsm
  unfold leadingStacks at hsm
  by_cases h1 : 0 < v0
  · simp only [h1, if_true] at hsm
    by_cases h2 : (collectHiddenEntries specs 0 v0).isEmpty = true
    · simp [h2] at hsm
    · have h2' : (collectHiddenEntries specs 0 v0).isEmpty = false := by
        cases hh : (collectHiddenEntries specs 0 v0).isEmpty
        · rfl
        · exact absurd hh h2
      simp only [h2', Bool.false_eq_true, if_false, List.mem_singleton] at hsm
      subst hsm
      refine ⟨le_rfl, ?_⟩
      dsimp only
      positivity
  · simp [h1] at hsm

theorem trailingStacks_nonneg (dW : String → Nat) (specs : List columnSpec)
    (lastVis : Nat) (off : Int) :
    ∀ s ∈ trailingStacks dW specs lastVis off, 0 ≤ s.offset ∧ 0 ≤ s.width := by
  intro s hsm
  unfold trailingStacks at hsm
  by_cases h1 : lastVis + 1 < specs.length
  · simp only [h1, if_true] at hsm
    by_cases h2 :
        (collectHiddenEntries specs (lastVis + 1) specs.length).isEmpty = true
    · simp [h2] at hsm
    · have h2' :
          (collectHiddenEntries specs (lastVis + 1) specs.length).isEmpty = false := by
        cases hh : (collectHiddenEntries specs (lastVis + 1) specs.length).isEmpty
        · rfl
        · exact absurd hh h2
      simp only [h2', Bool.false_eq_true, if_false, List.mem_singleton] at hsm
      subst hsm
      constructor
      · dsimp only
        split_ifs with hneg <;> omega
      · dsimp only
        positivity
  · simp [h1] at hsm

theorem preMergeStacks_nonneg (dW : String → Nat) (specs : List columnSpec)
    (vtf : List Nat) (widths : List Int) (sep : Int) :
    ∀ s ∈ preMergeStacks dW specs vtf widths sep,
      0 ≤ s.offset ∧ 0 ≤ s.width := by
  intro s hsm
  cases vtf with
  | nil => simp [preMergeStacks] at hsm
  | cons v0 vrest =>
    simp only [preMergeStacks, List.mem_append] at hsm
    rcases hsm with (hl | hi) | ht
    · exact leadingStacks_nonneg dW specs v0 s hl
    · exact interiorGo_nonneg dW specs sep vrest v0 widths.tail _ s hi
    · exact trailingStacks_nonneg dW specs _ _ s ht

theorem clampStack_bounded (T : Int) (s : collapsedStack) (hT : 0 ≤ T)
    (ho : 0 ≤ s.offset) (hw : 0 ≤ s.width) :
    stackBounded T (clampStack T s) := by
  unfold stackBounded clampStack
  dsimp only
  split_ifs <;> refine ⟨by omega, by omega, by omega⟩

/-- Invariant of the merge loop on the reversed accumulator: every merged
stack lies in the row, and each stack ends no later than the previously
appended (more leftward) one begins. -/
def revMergedInv (T : Int) (acc : List collapsedStack) : Prop :=
  (∀ s ∈ acc, stackBounded T s) ∧
  acc.Pairwise (fun a b => b.offset + b.width ≤ a.offset)

theorem mergeStep_inv (T : Int) (hT : 0 ≤ T) (acc : List collapsedStack)
    (s : collapsedStack) (hacc : revMergedInv T acc)
    (hs : stackBounded T s) :
    revMergedInv T (mergeStep T acc s) := by
  obtain ⟨hb, hpw⟩ := hacc
  cases acc with
  | nil =>
    refine ⟨?_, by simp [mergeStep]⟩
    intro t ht
    simp only [mergeStep, List.mem_singleton] at ht
    subst ht
    exact hs
  | cons last rest =>
    have hlast : stackBounded T last := hb last (by simp)
    have hbrest : ∀ t ∈ rest, stackBounded T t := fun t ht => hb t (by simp [ht])
    obtain ⟨hplast, hprest⟩ := List.pairwise_cons.mp hpw
    by_cases h : s.offset < last.offset + last.width
    · simp only [mergeStep, h, if_true]
      have hA := le_max_left (last.offset + last.width) (s.offset + s.width)
      have hB := max_le hlast.2.2 hs.2.2
      have hno :
          ¬ ((last.offset + last.width) ⊔ (s.offset + s.width) - last.offset > T) := by
        have := hlast.1
        omega
      constructor
      · intro t ht
        rcases List.mem_cons.mp ht with rfl | htr
        · refine ⟨hlast.1, ?_, ?_⟩
          · dsimp only
            rw [if_neg hno]
            have := hlast.2.1
            omega
          · dsimp only
            rw [if_neg hno]
            have := hlast.1
            omega
        · exact hbrest t htr
      · rw [List.pairwise_cons]
        exact ⟨fun b hb' => hplast b hb', hprest⟩
    · simp only [mergeStep, h, if_false]
      have hle : last.offset + last.width ≤ s.offset := by omega
      constructor
      · intro t ht
        rcases List.mem_cons.mp ht with rfl | htr
        · exact hs
        · exact hb t htr
      · rw [List.pairwise_cons]
        refine ⟨?_, hpw⟩
        intro b hb'
        rcases List.mem_cons.mp hb' with rfl | hbr
        · exact hle
        · have h1 := hplast b hbr
          have h2 := hlast.2.1
          omega

theorem foldl_mergeStep_inv (T : Int) (hT : 0 ≤ T) :
    ∀ (l acc : List collapsedStack), (∀ s ∈ l, stackBounded T s) →
      revMergedInv T acc → revMergedInv T (l.foldl (mergeStep T) acc) := by
  intro l
  induction l with
  | nil => intro acc _ hacc; exact hacc
  | cons s rest ih =>
    intro acc hl hacc
    simp only [List.foldl_cons]
    exact ih (mergeStep T acc s) (fun t ht => hl t (by simp [ht]))
      (mergeStep_inv T hT acc s hacc (hl s (by simp)))

/-- Every returned stack is bounded by the total rendered width, and the
returned stacks are ordered left to right without overlap. -/
theorem computeCollapsedStacks_inv (dW : String → Nat)
    (specs : List columnSpec) (vtf : List Nat) (widths : List Int) (sep : Int)
    (hw : ∀ w ∈ widths, 0 ≤ w) (hsep : 0 ≤ sep) :
    (∀ s ∈ computeCollapsedStacks dW specs vtf widths sep,
      stackBounded (totalColumnWidth widths sep) s) ∧
    (computeCollapsedStacks dW specs vtf widths sep).Pairwise
      (fun a b => a.offset + a.width ≤ b.offset) := by
  cases vtf with
  | nil => simp [computeCollapsedStacks]
  | cons v0 vrest =>
    have hT := totalColumnWidth_nonneg widths sep hw hsep
    have hpre := preMergeStacks_nonneg dW specs (v0 :: vrest) widths sep
    have hclamped : ∀ s ∈ (preMergeStacks dW specs (v0 :: vrest) widths sep).map
        (clampStack (totalColumnWidth widths sep)),
        stackBounded (totalColumnWidth widths sep) s := by
      intro s hsm
      rw [List.mem_map] at hsm
      obtain ⟨t, ht, rfl⟩ := hsm
      exact clampStack_bounded _ t hT (hpre t ht).1 (hpre t ht).2
    have hinv := foldl_mergeStep_inv (totalColumnWidth widths sep) hT
      ((preMergeStacks dW specs (v0 :: vrest) widths sep).map
        (clampStack (totalColumnWidth widths sep))) []
      hclamped ⟨by simp, by simp⟩
    obtain ⟨hbound, hpw⟩ := hinv
    constructor
    · intro s hsm
      simp only [computeCollapsedStacks] at hsm
      rw [List.mem_map] at hsm
      obtain ⟨t, ht, rfl⟩ := hsm
      rw [List.mem_reverse] at ht
      have hbt := hbound t ht
      simpa [stackBounded, sortStackEntries] using hbt
    · simp only [computeCollapsedStacks]
      apply List.Pairwise.map (S := fun a b => a.offset + a.width ≤ b.offset)
        sortStackEntries (fun a b hab => hab)
      exact List.pairwise_reverse.mpr hpw

/-- Claim C2: after the clamp and merge pass, no two returned stacks
overlap — for every pair of distinct returned stacks a and b (in list
order), either a ends at or before b starts or vice versa — given
nonnegative column widths and separator width. -/
theorem computeCollapsedStacks_disjoint (dW : String → Nat)
    (specs : List columnSpec) (vtf : List Nat) (widths : List Int) (sep : Int)
    (hw : ∀ w ∈ widths, 0 ≤ w) (hsep : 0 ≤ sep) :
    (computeCollapsedStacks dW specs vtf widths sep).Pairwise
      (fun a b => a.offset + a.width ≤ b.offset ∨
        b.offset + b.width ≤ a.offset) :=
  ((computeCollapsedStacks_inv dW specs vtf widths sep hw hsep).2).imp Or.inl

/-- Witness for C2: two disjoint edge stacks at a concrete input. -/
theorem computeCollapsedStacks_disjoint_witness :
    ((∀ w ∈ ([10] : List Int), 0 ≤ w) ∧ (0 : Int) ≤ 3) ∧
    (computeCollapsedStacks String.length cexSpecs [1] [10] 3).Pairwise
      (fun a b => a.offset + a.width ≤ b.offset ∨
        b.offset + b.width ≤ a.offset) :=
  ⟨⟨by decide, by decide⟩,
   computeCollapsedStacks_disjoint String.length cexSpecs [1] [10] 3
     (by decide) (by decide)⟩

/-- Claim C10: every returned stack lies within the rendered row — with
nonnegative widths and separator width and one width per visible column,
each stack satisfies 0 ≤ offset, width ≤ totalWidth and
offset + width ≤ totalWidth, where totalWidth is the sum of the visible
column widths plus (visible_count - 1) separator widths. -/
theorem computeCollapsedStacks_bounded (dW : String → Nat)
    (specs : List columnSpec) (vtf : List Nat) (widths : List Int) (sep : Int)
    (hw : ∀ w ∈ widths, 0 ≤ w) (hsep : 0 ≤ sep)
    (hlen : widths.length = vtf.length) :
    ∀ s ∈ computeCollapsedStacks dW specs vtf widths sep,
      0 ≤ s.offset ∧
      s.width ≤ sumInts widths + ((vtf.length : Int) - 1) * sep ∧
      s.offset + s.width ≤ sumInts widths + ((vtf.length : Int) - 1) * sep := by
  cases vtf with
  | nil => intro s hsm; simp [computeCollapsedStacks] at hsm
  | cons v0 vrest =>
    intro s hsm
    have hTeq : totalColumnWidth widths sep =
        sumInts widths + (((v0 :: vrest).length : Int) - 1) * sep := by
      unfold totalColumnWidth
      rw [hlen]
      split_ifs with h1
      · rfl
      · have hone : (v0 :: vrest).length = 1 := by
          simp only [List.length_cons] at h1 ⊢
          omega
        rw [hone]
        norm_num
    have hb := (computeCollapsedStacks_inv dW specs (v0 :: vrest) widths sep
      hw hsep).1 s hsm
    rw [hTeq] at hb
    obtain ⟨h1, h2, h3⟩ := hb
    exact ⟨h1, by omega, h3⟩

/-- Witness for C10 at a concrete input. -/
theorem computeCollapsedStacks_bounded_witness :
    ((∀ w ∈ ([10] : List Int), 0 ≤ w) ∧ (0 : Int) ≤ 3 ∧
      ([10] : List Int).length = ([1] : List Nat).length ∧
      (⟨[⟨"A", 0, 1⟩], 0, 3, true⟩ : collapsedStack) ∈
        computeCollapsedStacks String.length cexSpecs [1] [10] 3) ∧
    (0 ≤ (⟨[⟨"A", 0, 1⟩], 0, 3, true⟩ : collapsedStack).offset ∧
      (⟨[⟨"A", 0, 1⟩], 0, 3, true⟩ : collapsedStack).width ≤
        sumInts [10] + ((([1] : List Nat).length : Int) - 1) * 3 ∧
      (⟨[⟨"A", 0, 1⟩], 0, 3, true⟩ : collapsedStack).offset +
          (⟨[⟨"A", 0, 1⟩], 0, 3, true⟩ : collapsedStack).width ≤
        sumInts [10] + ((([1] : List Nat).length : Int) - 1) * 3) :=
  ⟨⟨by decide, by decide, by decide, by decide⟩,
   computeCollapsedStacks_bounded String.length cexSpecs [1] [10] 3
     (by decide) (by decide) (by decide)
     ⟨[⟨"A", 0, 1⟩], 0, 3, true⟩ (by decide)⟩

end Micasa
